import Mathlib

/-
Verification of the p4est 2D inter-tree connectivity engine.

The repository ships the public interface in src/src/p4est_connectivity.h;
the implementation file p4est_connectivity.c is not part of the excerpt.
Where a definition below embeds behavior whose implementation is missing,
its doc comment starts with the words Modelled from the spec and names the
missing function; the header remains the authority for the data layout, the
tree_to_face encoding (ttf = face + 4 * orientation), the ftransform slot
layout (slots 1, 4, 7 are zero for 3D compatibility) and the nullity rules
for num_vertices = 0 and num_corners = 0.

All machine integers here are p4est_topidx_t (a signed integer type) or
int8_t values far from overflow; they are embedded as Int, and counts as
Nat, with no modular wraparound since every value handled stays tiny.
-/

namespace P4estConn

/-- Connectivity record, embedding struct p4est_connectivity from the header.
Counts are the non-negative num_vertices, num_trees, num_corners.
Arrays that the header sets to NULL when their governing count is zero are
embedded as Option; vertices are flattened to three coordinates per vertex
(the fixtures use integer construction-time literals, compared exactly). -/
structure Conn where
  num_vertices : Nat
  num_trees : Nat
  num_corners : Nat
  vertices : Option (List Int)
  tree_to_vertex : Option (List Int)
  tree_to_tree : List Int
  tree_to_face : List Int
  tree_to_corner : Option (List Int)
  ctt_offset : Option (List Int)
  corner_to_tree : Option (List Int)
  corner_to_corner : Option (List Int)
deriving DecidableEq, Repr

/-- Read an Int list at a position, with default 0 out of range. -/
def iat (l : List Int) (i : Nat) : Int := l.getD i 0

/-- Read an optional array at a position with an explicit default. -/
def oat (o : Option (List Int)) (i : Nat) (d : Int) : Int := (o.getD []).getD i d

/-- Entry tree_to_tree[i]. -/
def tt_at (c : Conn) (i : Nat) : Int := iat c.tree_to_tree i

/-- Entry tree_to_face[i]. -/
def tf_at (c : Conn) (i : Nat) : Int := iat c.tree_to_face i

/-- Entry tree_to_vertex[i] (0 when the array is NULL). -/
def ttv_at (c : Conn) (i : Nat) : Int := oat c.tree_to_vertex i 0

/-- Entry tree_to_corner[i]; a NULL array reads as all -1, matching the
header's rule that untracked corners carry the entry -1. -/
def ttc_at (c : Conn) (i : Nat) : Int := oat c.tree_to_corner i (-1)

/-- Entry ctt_offset[i] (0 when the array is NULL). -/
def off_at (c : Conn) (i : Nat) : Int := oat c.ctt_offset i 0

/-- Entry corner_to_tree[i]. -/
def ctt_at (c : Conn) (i : Nat) : Int := oat c.corner_to_tree i 0

/-- Entry corner_to_corner[i]. -/
def ctc_at (c : Conn) (i : Nat) : Int := oat c.corner_to_corner i 0

/-- Total size num_ctt = ctt_offset[num_corners] of the corner_to_* arrays. -/
def conn_num_ctt (c : Conn) : Int := off_at c c.num_corners

/-- Fixed table p4est_face_corners of the header: the two corner numbers on
each tree face, in z-order (faces ordered -x +x -y +y). -/
def p4est_face_corners (f : Nat) : List Nat :=
  match f with
  | 0 => [0, 2]
  | 1 => [1, 3]
  | 2 => [0, 1]
  | _ => [2, 3]

/-- Fixed table p4est_corner_faces of the header: the two faces touching
each tree corner. -/
def p4est_corner_faces (l : Nat) : List Nat :=
  match l with
  | 0 => [0, 2]
  | 1 => [1, 2]
  | 2 => [0, 3]
  | _ => [1, 3]

/-- Fixed lookup giving the tangential axis of a face (faces 0,1 are the x
faces with tangential axis y = 1; faces 2,3 the y faces with tangential
axis x = 0). -/
def face_tangent_axis (f : Int) : Int := 1 - f / 2

/-- Fixed lookup giving the normal axis of a face. -/
def face_normal_axis (f : Int) : Int := f / 2

/-- Modelled from the spec: the 9-slot axis-combination encoding written by
the missing p4est_find_face_transform for originating face iface, neighbor
face nface and orientation bit o.  Slot layout follows the header: slots
0 and 2 are the tangential and normal axis of the origin face, slots 3 and
5 the same for the target face, slot 6 the edge reverse flag (equal to the
orientation bit), slot 8 the target face code, and slots 1, 4, 7 are 0,
unused in 2D for compatibility with the 3D layout. -/
def build_ftransform (iface nface o : Int) : List Int :=
  [face_tangent_axis iface, 0, face_normal_axis iface,
   face_tangent_axis nface, 0, face_normal_axis nface,
   o, 0, nface]

/-- Modelled from the spec: p4est_find_face_transform, whose implementation
file is missing.  It reads the (itree, iface) slot of tree_to_tree and
tree_to_face, decodes neighbor face nface = ttf mod 4 and orientation
o = ttf div 4, returns -1 with no transform written when the slot is a
self-reference encoding the same face back (outer boundary), and otherwise
returns the neighbor tree together with the 9-slot transform.  The unwritten
transform array of the boundary case is embedded as none. -/
def p4est_find_face_transform (c : Conn) (itree iface : Nat) :
    Int × Option (List Int) :=
  let nt := tt_at c (4 * itree + iface)
  let ttf := tf_at c (4 * itree + iface)
  if nt = (itree : Int) ∧ ttf % 4 = (iface : Int) then (-1, none)
  else (nt, some (build_ftransform (iface : Int) (ttf % 4) (ttf / 4)))

/-- Position list of the incidence slots of corner k in the CSR arrays,
namely ctt_offset[k] .. ctt_offset[k+1] - 1. -/
def cttRange (c : Conn) (k : Nat) : List Nat :=
  (List.range ((off_at c (k + 1)).toNat - (off_at c k).toNat)).map
    (fun j => (off_at c k).toNat + j)

/-- Index (0 or 1) of local corner l within the corner list of face f. -/
def corner_index_on_face (f l : Nat) : Nat :=
  if (p4est_face_corners f).getD 0 0 = l then 0 else 1

/-- Modelled from the spec: the face-walk-inference path of the missing
p4est_find_corner_transform.  It walks the two faces adjacent to the corner
via the face transform, omits a face with no neighbor (domain boundary),
computes on each remaining face the neighbor's matching corner through the
face corner tables composed with the orientation bit, excludes the
originating pair and deduplicates. -/
def corner_path_walk (c : Conn) (t l : Nat) : List (Int × Int) :=
  (((p4est_corner_faces l).filterMap (fun f =>
      let r := p4est_find_face_transform c t f
      if r.1 = -1 then none
      else
        let ttf := tf_at c (4 * t + f)
        let nf := (ttf % 4).toNat
        let o := (ttf / 4).toNat
        let j := corner_index_on_face f l
        let nc := (p4est_face_corners nf).getD ((j + o) % 2) 0
        some (r.1, (nc : Int)))).filter
    (fun q => q ≠ ((t : Int), (l : Int)))).dedup

/-- Modelled from the spec: the explicit-registration path of the missing
p4est_find_corner_transform.  It reads the CSR incidence list of corner k
directly from corner_to_tree and corner_to_corner, excludes the originating
pair and deduplicates. -/
def corner_path_csr (c : Conn) (t l : Nat) (k : Nat) : List (Int × Int) :=
  (((cttRange c k).map (fun p => (ctt_at c p, ctc_at c p))).filter
    (fun q => q ≠ ((t : Int), (l : Int)))).dedup

/-- Modelled from the spec: p4est_find_corner_transform, whose
implementation file is missing.  When the corner is not registered
(tree_to_corner entry -1) the result set comes from the face walk; when it
is registered the result set is read from the CSR incidence list. -/
def p4est_find_corner_transform (c : Conn) (t l : Nat) : List (Int × Int) :=
  let k := ttc_at c (4 * t + l)
  if k < 0 then corner_path_walk c t l
  else corner_path_csr c t l k.toNat

/-- Modelled from the spec: check (a) of the missing
p4est_connectivity_is_valid, the null/shape check.  Array lengths must
match the declared counts, vertices and tree_to_vertex are NULL exactly
when num_vertices is 0, the four corner arrays are NULL exactly when
num_corners is 0, and, when present, ctt_offset starts at 0, is
non-decreasing and ends at the common length of the corner_to_* arrays. -/
def check_shape (c : Conn) : Bool :=
  (if c.num_vertices = 0
   then decide (c.vertices = none) && decide (c.tree_to_vertex = none)
   else match c.vertices, c.tree_to_vertex with
     | some v, some tv =>
       decide (v.length = 3 * c.num_vertices) &&
       decide (tv.length = 4 * c.num_trees)
     | _, _ => false) &&
  decide (c.tree_to_tree.length = 4 * c.num_trees) &&
  decide (c.tree_to_face.length = 4 * c.num_trees) &&
  (if c.num_corners = 0
   then decide (c.tree_to_corner = none) && decide (c.ctt_offset = none) &&
        decide (c.corner_to_tree = none) && decide (c.corner_to_corner = none)
   else match c.tree_to_corner, c.ctt_offset, c.corner_to_tree,
              c.corner_to_corner with
     | some k, some off, some ct, some cc =>
       decide (k.length = 4 * c.num_trees) &&
       decide (off.length = c.num_corners + 1) &&
       decide (off.headD 0 = 0) &&
       (List.range (off.length - 1)).all
         (fun i => decide (iat off i ≤ iat off (i + 1))) &&
       decide ((ct.length : Int) = off.getLastD 0) &&
       decide (cc.length = ct.length)
     | _, _, _, _ => false)

/-- Modelled from the spec: check (b) of the missing
p4est_connectivity_is_valid, the index-range check on every stored entry of
tree_to_vertex, tree_to_tree and tree_to_corner. -/
def check_range (c : Conn) : Bool :=
  (decide (c.num_vertices = 0) ||
    (List.range (4 * c.num_trees)).all (fun i =>
      decide (0 ≤ ttv_at c i ∧ ttv_at c i < (c.num_vertices : Int)))) &&
  (List.range (4 * c.num_trees)).all (fun i =>
    decide (0 ≤ tt_at c i ∧ tt_at c i < (c.num_trees : Int))) &&
  (List.range (4 * c.num_trees)).all (fun i =>
    decide (-1 ≤ ttc_at c i ∧ ttc_at c i < (c.num_corners : Int)))

/-- Modelled from the spec: check (c) of the missing
p4est_connectivity_is_valid, the face-symmetry check.  Every tree_to_face
entry lies in 0..7, and if tree t's face f points to tree nt, face nf,
orientation o, then tree nt's face nf points back to tree t, face f, with
the same orientation o. -/
def check_faces (c : Conn) : Bool :=
  (List.range c.num_trees).all (fun t =>
    (List.range 4).all (fun f =>
      let nt := tt_at c (4 * t + f)
      let ttf := tf_at c (4 * t + f)
      decide (0 ≤ ttf ∧ ttf < 8) &&
      decide (tt_at c (4 * nt.toNat + (ttf % 4).toNat) = (t : Int)) &&
      decide (tf_at c (4 * nt.toNat + (ttf % 4).toNat) =
              (f : Int) + 4 * (ttf / 4))))

/-- Modelled from the spec: check (d) of the missing
p4est_connectivity_is_valid, the corner cross-consistency check.  Every
tree whose tree_to_corner names corner k appears in corner k's CSR
incidence list, and every pair stored in a corner's incidence list is in
range and names that corner back in its tree_to_corner entry. -/
def check_corners (c : Conn) : Bool :=
  ((List.range c.num_trees).all (fun t =>
    (List.range 4).all (fun l =>
      let k := ttc_at c (4 * t + l)
      decide (k < 0) ||
      (cttRange c k.toNat).any (fun p =>
        decide (ctt_at c p = (t : Int) ∧ ctc_at c p = (l : Int)))))) &&
  ((List.range c.num_corners).all (fun k =>
    (cttRange c k).all (fun p =>
      decide (0 ≤ ctt_at c p ∧ ctt_at c p < (c.num_trees : Int) ∧
              0 ≤ ctc_at c p ∧ ctc_at c p < 4) &&
      decide (ttc_at c (4 * (ctt_at c p).toNat + (ctc_at c p).toNat) =
              (k : Int)))))

/-- Modelled from the spec: p4est_connectivity_is_valid, whose
implementation file is missing.  The four checks run in the stated order
joined by short-circuit Boolean conjunction, as a pure read-only
traversal. -/
def p4est_connectivity_is_valid (c : Conn) : Bool :=
  check_shape c && check_range c && check_faces c && check_corners c

/-- Declarative form of the null/shape check (a). -/
def ShapeOK (c : Conn) : Prop :=
  (c.num_vertices = 0 → c.vertices = none ∧ c.tree_to_vertex = none) ∧
  (c.num_vertices ≠ 0 → ∃ v tv, c.vertices = some v ∧
    c.tree_to_vertex = some tv ∧ v.length = 3 * c.num_vertices ∧
    tv.length = 4 * c.num_trees) ∧
  c.tree_to_tree.length = 4 * c.num_trees ∧
  c.tree_to_face.length = 4 * c.num_trees ∧
  (c.num_corners = 0 → c.tree_to_corner = none ∧ c.ctt_offset = none ∧
    c.corner_to_tree = none ∧ c.corner_to_corner = none) ∧
  (c.num_corners ≠ 0 → ∃ k off ct cc, c.tree_to_corner = some k ∧
    c.ctt_offset = some off ∧ c.corner_to_tree = some ct ∧
    c.corner_to_corner = some cc ∧ k.length = 4 * c.num_trees ∧
    off.length = c.num_corners + 1 ∧ off.headD 0 = 0 ∧
    (∀ i, i + 1 < off.length → iat off i ≤ iat off (i + 1)) ∧
    (ct.length : Int) = off.getLastD 0 ∧ cc.length = ct.length)

/-- Declarative form of the index-range check (b). -/
def RangeOK (c : Conn) : Prop :=
  (c.num_vertices ≠ 0 → ∀ i, i < 4 * c.num_trees →
    0 ≤ ttv_at c i ∧ ttv_at c i < (c.num_vertices : Int)) ∧
  (∀ i, i < 4 * c.num_trees →
    0 ≤ tt_at c i ∧ tt_at c i < (c.num_trees : Int)) ∧
  (∀ i, i < 4 * c.num_trees →
    -1 ≤ ttc_at c i ∧ ttc_at c i < (c.num_corners : Int))

/-- Declarative form of the face-symmetry check (c). -/
def FaceSymOK (c : Conn) : Prop :=
  ∀ t, t < c.num_trees → ∀ f, f < 4 →
    (0 ≤ tf_at c (4 * t + f) ∧ tf_at c (4 * t + f) < 8) ∧
    tt_at c (4 * (tt_at c (4 * t + f)).toNat +
             (tf_at c (4 * t + f) % 4).toNat) = (t : Int) ∧
    tf_at c (4 * (tt_at c (4 * t + f)).toNat +
             (tf_at c (4 * t + f) % 4).toNat) =
      (f : Int) + 4 * (tf_at c (4 * t + f) / 4)

/-- Declarative form of the corner cross-consistency check (d). -/
def CornerOK (c : Conn) : Prop :=
  (∀ t, t < c.num_trees → ∀ l, l < 4 → ¬ ttc_at c (4 * t + l) < 0 →
    ∃ p ∈ cttRange c (ttc_at c (4 * t + l)).toNat,
      ctt_at c p = (t : Int) ∧ ctc_at c p = (l : Int)) ∧
  (∀ k, k < c.num_corners → ∀ p ∈ cttRange c k,
    (0 ≤ ctt_at c p ∧ ctt_at c p < (c.num_trees : Int) ∧
     0 ≤ ctc_at c p ∧ ctc_at c p < 4) ∧
    ttc_at c (4 * (ctt_at c p).toNat + (ctc_at c p).toNat) = (k : Int))

/-- Modelled from the spec: p4est_connectivity_new_unitsquare, whose
implementation file is missing.  One tree, four vertices, no connecting
corners; every face is an outer boundary face, encoded as a self-reference
carrying the same face number back. -/
def unitsquare_conn : Conn where
  num_vertices := 4
  num_trees := 1
  num_corners := 0
  vertices := some [0, 0, 0, 1, 0, 0, 0, 1, 0, 1, 1, 0]
  tree_to_vertex := some [0, 1, 2, 3]
  tree_to_tree := [0, 0, 0, 0]
  tree_to_face := [0, 1, 2, 3]
  tree_to_corner := none
  ctt_offset := none
  corner_to_tree := none
  corner_to_corner := none

/-- Modelled from the spec: p4est_connectivity_new_periodic, whose
implementation file is missing.  One tree with the left and right faces
identified and the bottom and top faces identified, both aligned, so no
face is a boundary face. -/
def periodic_conn : Conn where
  num_vertices := 4
  num_trees := 1
  num_corners := 0
  vertices := some [0, 0, 0, 1, 0, 0, 0, 1, 0, 1, 1, 0]
  tree_to_vertex := some [0, 1, 2, 3]
  tree_to_tree := [0, 0, 0, 0]
  tree_to_face := [1, 0, 3, 2]
  tree_to_corner := none
  ctt_offset := none
  corner_to_tree := none
  corner_to_corner := none

/-- Modelled from the spec: p4est_connectivity_new_rotwrap, whose
implementation file is missing.  One tree with the left and right faces
identified in the aligned sense and the bottom and top faces identified
with the orientation bit set, so no face is a boundary face. -/
def rotwrap_conn : Conn where
  num_vertices := 4
  num_trees := 1
  num_corners := 0
  vertices := some [0, 0, 0, 1, 0, 0, 0, 1, 0, 1, 1, 0]
  tree_to_vertex := some [0, 1, 2, 3]
  tree_to_tree := [0, 0, 0, 0]
  tree_to_face := [1, 0, 7, 6]
  tree_to_corner := none
  ctt_offset := none
  corner_to_tree := none
  corner_to_corner := none

/-- Modelled from the spec: p4est_connectivity_new_corner, whose
implementation file is missing.  Three trees around one connecting corner:
tree i glues its -x face to the -y face of tree i+1 mod 3, the +x and +y
faces are boundary, and the shared corner is local corner 0 of every tree,
registered as connecting corner 0 with three incidences. -/
def corner_conn : Conn where
  num_vertices := 0
  num_trees := 3
  num_corners := 1
  vertices := none
  tree_to_vertex := none
  tree_to_tree := [1, 0, 2, 0, 2, 1, 0, 1, 0, 2, 1, 2]
  tree_to_face := [2, 1, 0, 3, 2, 1, 0, 3, 2, 1, 0, 3]
  tree_to_corner := some [0, -1, -1, -1, 0, -1, -1, -1, 0, -1, -1, -1]
  ctt_offset := some [0, 3]
  corner_to_tree := some [0, 1, 2]
  corner_to_corner := some [0, 0, 0]

/-- Modelled from the spec: p4est_connectivity_new_star, whose
implementation file is missing.  Six trees meeting at one connecting
corner: tree i glues its -x face to the -y face of tree i+1 mod 6, the +x
and +y faces are boundary, and the shared corner is local corner 0 of every
tree, registered as connecting corner 0 with six incidences. -/
def star_conn : Conn where
  num_vertices := 0
  num_trees := 6
  num_corners := 1
  vertices := none
  tree_to_vertex := none
  tree_to_tree := [1, 0, 5, 0, 2, 1, 0, 1, 3, 2, 1, 2,
                   4, 3, 2, 3, 5, 4, 3, 4, 0, 5, 4, 5]
  tree_to_face := [2, 1, 0, 3, 2, 1, 0, 3, 2, 1, 0, 3,
                   2, 1, 0, 3, 2, 1, 0, 3, 2, 1, 0, 3]
  tree_to_corner := some [0, -1, -1, -1, 0, -1, -1, -1, 0, -1, -1, -1,
                          0, -1, -1, -1, 0, -1, -1, -1, 0, -1, -1, -1]
  ctt_offset := some [0, 6]
  corner_to_tree := some [0, 1, 2, 3, 4, 5]
  corner_to_corner := some [0, 0, 0, 0, 0, 0]

/-- Modelled from the spec: p4est_connectivity_new_moebius, whose
implementation file is missing.  Five trees in a closed band: tree i glues
its +x face to the -x face of tree i+1 mod 5, with the single wrap-around
gluing between tree 4 and tree 0 carrying the orientation bit (the one
reversed gluing of the non-orientable band).  The -y and +y faces are
boundary.  Every corner where two consecutive trees meet is registered as a
connecting corner with its two incidences. -/
def moebius_conn : Conn where
  num_vertices := 0
  num_trees := 5
  num_corners := 10
  vertices := none
  tree_to_vertex := none
  tree_to_tree := [4, 1, 0, 0, 0, 2, 1, 1, 1, 3, 2, 2,
                   2, 4, 3, 3, 3, 0, 4, 4]
  tree_to_face := [5, 0, 2, 3, 1, 0, 2, 3, 1, 0, 2, 3,
                   1, 0, 2, 3, 1, 4, 2, 3]
  tree_to_corner := some [9, 0, 8, 1, 0, 2, 1, 3, 2, 4, 3, 5,
                          4, 6, 5, 7, 6, 8, 7, 9]
  ctt_offset := some [0, 2, 4, 6, 8, 10, 12, 14, 16, 18, 20]
  corner_to_tree := some [0, 1, 0, 1, 1, 2, 1, 2, 2, 3,
                          2, 3, 3, 4, 3, 4, 4, 0, 4, 0]
  corner_to_corner := some [1, 0, 3, 2, 1, 0, 3, 2, 1, 0,
                            3, 2, 1, 0, 3, 2, 1, 2, 3, 0]

/-- Modelled from the spec: p4est_connectivity_is_equal, whose
implementation file is missing.  Structural value comparison of the counts
and of every array, element-wise and exact. -/
def p4est_connectivity_is_equal (a b : Conn) : Bool :=
  decide (a.num_vertices = b.num_vertices) &&
  decide (a.num_trees = b.num_trees) &&
  decide (a.num_corners = b.num_corners) &&
  decide (a.vertices = b.vertices) &&
  decide (a.tree_to_vertex = b.tree_to_vertex) &&
  decide (a.tree_to_tree = b.tree_to_tree) &&
  decide (a.tree_to_face = b.tree_to_face) &&
  decide (a.tree_to_corner = b.tree_to_corner) &&
  decide (a.ctt_offset = b.ctt_offset) &&
  decide (a.corner_to_tree = b.corner_to_tree) &&
  decide (a.corner_to_corner = b.corner_to_corner)

/-- On-disk format version constant of the header. -/
def P4EST_ONDISK_FORMAT : Int := 0x2000007

/-- Modelled from the spec: p4est_connectivity_save, whose implementation
file is missing.  The file is a fixed-order dump of the version tag, the
four counts and then the raw array contents, with arrays present only per
the nullity rules; the file is embedded as the list of stored integers. -/
def p4est_connectivity_save (c : Conn) : List Int :=
  [P4EST_ONDISK_FORMAT, (c.num_vertices : Int), (c.num_trees : Int),
   (c.num_corners : Int), conn_num_ctt c] ++
  c.vertices.getD [] ++ c.tree_to_vertex.getD [] ++
  c.tree_to_tree ++ c.tree_to_face ++
  c.tree_to_corner.getD [] ++ c.ctt_offset.getD [] ++
  c.corner_to_tree.getD [] ++ c.corner_to_corner.getD []

/-- Split off exactly n entries of a file, failing when fewer remain. -/
def takeExact (n : Nat) (l : List Int) : Option (List Int × List Int) :=
  if n ≤ l.length then some (l.take n, l.drop n) else none

/-- Modelled from the spec: p4est_connectivity_load, whose implementation
file is missing.  It reads the version tag first and fails fatally when the
tag differs from the compiled-in constant, then reads counts and arrays in
the fixed save order; the process abort on an I/O or structural decoding
failure is embedded as the result none.  The second component is the number
of stored integers consumed, standing in for the on-disk byte length. -/
def p4est_connectivity_load (file : List Int) : Option (Conn × Nat) :=
  match file with
  | v :: nv :: ntr :: nc :: nctt :: rest =>
    if v = P4EST_ONDISK_FORMAT ∧ 0 ≤ nv ∧ 0 ≤ ntr ∧ 0 ≤ nc ∧ 0 ≤ nctt
    then do
      let (verts, r1) ← takeExact (3 * nv.toNat) rest
      let (ttv, r2) ←
        if nv = 0 then some ([], r1) else takeExact (4 * ntr.toNat) r1
      let (tt, r3) ← takeExact (4 * ntr.toNat) r2
      let (tf, r4) ← takeExact (4 * ntr.toNat) r3
      let (ttc, r5) ←
        if nc = 0 then some ([], r4) else takeExact (4 * ntr.toNat) r4
      let (off, r6) ←
        if nc = 0 then some ([], r5) else takeExact (nc.toNat + 1) r5
      let (ctt, r7) ←
        if nc = 0 then some ([], r6) else takeExact nctt.toNat r6
      let (ctc, r8) ←
        if nc = 0 then some ([], r7) else takeExact nctt.toNat r7
      some (⟨nv.toNat, ntr.toNat, nc.toNat,
             if nv = 0 then none else some verts,
             if nv = 0 then none else some ttv,
             tt, tf,
             if nc = 0 then none else some ttc,
             if nc = 0 then none else some off,
             if nc = 0 then none else some ctt,
             if nc = 0 then none else some ctc⟩,
            file.length - r8.length)
    else none
  | _ => none

/-- Round-trip through the persistence codec, compared under is_equal. -/
def save_load_roundtrip (c : Conn) : Bool :=
  match p4est_connectivity_load (p4est_connectivity_save c) with
  | some (r, _) => p4est_connectivity_is_equal c r
  | none => false

/-- Heap of live connectivity records by allocation id, standing in for the
allocator state; each record value owns its arrays, so dropping the record
from the heap releases them with it. -/
structure ConnHeap where
  recs : List (Nat × Conn)

/-- Look up a live record by id. -/
def heap_lookup (h : ConnHeap) (i : Nat) : Option Conn :=
  (h.recs.find? (fun e => e.1 == i)).map Prod.snd

/-- Modelled from the spec: p4est_connectivity_destroy, whose
implementation file is missing.  Applied to a NULL record pointer
(embedded as none) it is a no-op returning the heap unchanged; applied to a
record id it removes the record, and with it all owned arrays, from the
heap. -/
def p4est_connectivity_destroy (h : ConnHeap) (p : Option Nat) : ConnHeap :=
  match p with
  | none => h
  | some i => ⟨h.recs.filter (fun e => decide (e.1 ≠ i))⟩

/-- Walk n face-neighbor steps from tree t, always leaving through local
face f, accumulating the orientation bits of the crossed gluings; the
result is the final tree and the total flip count.  In the band fixtures
leaving through face 1 circles the band forward and face 0 backward. -/
def band_walk (c : Conn) (f : Nat) : Nat → Nat → Nat × Nat
  | 0, t => (t, 0)
  | n + 1, t =>
    let nt := (tt_at c (4 * t + f)).toNat
    let o := (tf_at c (4 * t + f) / 4).toNat
    let r := band_walk c f n nt
    (r.1, r.2 + o)

/-- Boundary behavior of the face transform at one query: the returned
tree is -1 exactly when the slot is a self-reference carrying the same face
number back, the transform stays unwritten in the -1 case, and otherwise
the returned value is the tree_to_tree entry and the transform is the
9-slot encoding built from the decoded neighbor face and orientation. -/
def FftBoundarySpec (c : Conn) (t f : Nat) : Prop :=
  ((p4est_find_face_transform c t f).1 = -1 ↔
    (tt_at c (4 * t + f) = (t : Int) ∧
     tf_at c (4 * t + f) % 4 = (f : Int))) ∧
  ((p4est_find_face_transform c t f).1 = -1 →
    (p4est_find_face_transform c t f).2 = none) ∧
  ((p4est_find_face_transform c t f).1 ≠ -1 →
    (p4est_find_face_transform c t f).1 = tt_at c (4 * t + f) ∧
    (p4est_find_face_transform c t f).2 =
      some (build_ftransform (f : Int) (tf_at c (4 * t + f) % 4)
        (tf_at c (4 * t + f) / 4)))

/-- Symmetry of the face transform at one query yielding neighbor nt with
transform A: the reverse query at the decoded neighbor face yields tree t
back with some transform B whose slots 0 to 2 are A's slots 3 to 5 and
conversely, with the same reversal flag in slot 6, and the reverse slot
decodes to face f with the same orientation bit. -/
def FftSymSpec (c : Conn) (t f : Nat) (nt : Int) (A : List Int) : Prop :=
  0 ≤ nt ∧
  ∃ B, p4est_find_face_transform c nt.toNat
        (tf_at c (4 * t + f) % 4).toNat = ((t : Int), some B) ∧
    (∀ i, i < 3 → B.getD i 0 = A.getD (i + 3) 0 ∧
      B.getD (i + 3) 0 = A.getD i 0) ∧
    B.getD 6 0 = A.getD 6 0 ∧
    tf_at c (4 * nt.toNat + (tf_at c (4 * t + f) % 4).toNat) % 4 =
      (f : Int) ∧
    tf_at c (4 * nt.toNat + (tf_at c (4 * t + f) % 4).toNat) / 4 =
      tf_at c (4 * t + f) / 4

/-- Expected result set at the six-tree star's central corner as seen from
tree t: every other tree with its local corner 0. -/
def star_center_pairs (t : Nat) : List (Int × Int) :=
  ((List.range 6).map (fun j => ((j : Int), (0 : Int)))).filter
    (fun q => q ≠ ((t : Int), (0 : Int)))

theorem check_shape_iff (c : Conn) : check_shape c = true ↔ ShapeOK c := by
  unfold check_shape ShapeOK
  constructor
  · intro h
    simp only [Bool.and_eq_true, decide_eq_true_eq] at h
    obtain ⟨⟨⟨h1, h2⟩, h3⟩, h4⟩ := h
    refine ⟨?_, ?_, h2, h3, ?_, ?_⟩
    · intro hv
      simp only [if_pos hv, Bool.and_eq_true, decide_eq_true_eq] at h1
      exact h1
    · intro hv
      simp only [if_neg hv] at h1
      cases hvv : c.vertices with
      | none => rw [hvv] at h1; cases c.tree_to_vertex <;> simp at h1
      | some v =>
        cases htv : c.tree_to_vertex with
        | none => rw [hvv, htv] at h1; simp at h1
        | some tv =>
          rw [hvv, htv] at h1
          simp only [Bool.and_eq_true, decide_eq_true_eq] at h1
          exact ⟨v, tv, rfl, rfl, h1.1, h1.2⟩
    · intro hc
      simp only [if_pos hc, Bool.and_eq_true, decide_eq_true_eq] at h4
      exact ⟨h4.1.1.1, h4.1.1.2, h4.1.2, h4.2⟩
    · intro hc
      simp only [if_neg hc] at h4
      cases hk : c.tree_to_corner with
      | none =>
        rw [hk] at h4
        cases c.ctt_offset <;> cases c.corner_to_tree <;>
          cases c.corner_to_corner <;> simp at h4
      | some k =>
        cases ho : c.ctt_offset with
        | none =>
          rw [hk, ho] at h4
          cases c.corner_to_tree <;> cases c.corner_to_corner <;> simp at h4
        | some off =>
          cases hct : c.corner_to_tree with
          | none =>
            rw [hk, ho, hct] at h4
            cases c.corner_to_corner <;> simp at h4
          | some ct =>
            cases hcc : c.corner_to_corner with
            | none => rw [hk, ho, hct, hcc] at h4; simp at h4
            | some cc =>
              rw [hk, ho, hct, hcc] at h4
              simp only [Bool.and_eq_true, decide_eq_true_eq,
                List.all_eq_true, List.mem_range] at h4
              obtain ⟨⟨⟨⟨⟨m1, m2⟩, m3⟩, m4⟩, m5⟩, m6⟩ := h4
              refine ⟨k, off, ct, cc, rfl, rfl, rfl, rfl, m1, m2, m3,
                ?_, m5, m6⟩
              intro i hi
              exact m4 i (by omega)
  · intro h
    obtain ⟨h1, h2, h3, h4, h5, h6⟩ := h
    simp only [Bool.and_eq_true, decide_eq_true_eq]
    refine ⟨⟨⟨?_, h3⟩, h4⟩, ?_⟩
    · by_cases hv : c.num_vertices = 0
      · simp only [if_pos hv, Bool.and_eq_true, decide_eq_true_eq]
        exact h1 hv
      · simp only [if_neg hv]
        obtain ⟨v, tv, ev, etv, lv, ltv⟩ := h2 hv
        rw [ev, etv]
        simp only [Bool.and_eq_true, decide_eq_true_eq]
        exact ⟨lv, ltv⟩
    · by_cases hc : c.num_corners = 0
      · simp only [if_pos hc, Bool.and_eq_true, decide_eq_true_eq]
        obtain ⟨e1, e2, e3, e4⟩ := h5 hc
        exact ⟨⟨⟨e1, e2⟩, e3⟩, e4⟩
      · simp only [if_neg hc]
        obtain ⟨k, off, ct, cc, e1, e2, e3, e4, m1, m2, m3, m4, m5, m6⟩ :=
          h6 hc
        rw [e1, e2, e3, e4]
        simp only [Bool.and_eq_true, decide_eq_true_eq, List.all_eq_true,
          List.mem_range]
        refine ⟨⟨⟨⟨⟨m1, m2⟩, m3⟩, ?_⟩, m5⟩, m6⟩
        intro i hi
        exact m4 i (by omega)

theorem check_range_iff (c : Conn) : check_range c = true ↔ RangeOK c := by
  unfold check_range RangeOK
  simp only [Bool.and_eq_true, Bool.or_eq_true, List.all_eq_true,
    List.mem_range, decide_eq_true_eq]
  constructor
  · rintro ⟨⟨hv, h2⟩, h3⟩
    refine ⟨?_, h2, h3⟩
    intro hnv i hi
    rcases hv with hv | hv
    · exact absurd hv hnv
    · exact hv i hi
  · rintro ⟨h1, h2, h3⟩
    refine ⟨⟨?_, h2⟩, h3⟩
    by_cases hv : c.num_vertices = 0
    · exact Or.inl hv
    · exact Or.inr (h1 hv)

theorem check_faces_iff (c : Conn) : check_faces c = true ↔ FaceSymOK c := by
  unfold check_faces FaceSymOK
  simp only [Bool.and_eq_true, List.all_eq_true, List.mem_range,
    decide_eq_true_eq]
  constructor
  · intro h t ht f hf
    obtain ⟨⟨a, b⟩, d⟩ := h t ht f hf
    exact ⟨a, b, d⟩
  · intro h t ht f hf
    obtain ⟨a, b, d⟩ := h t ht f hf
    exact ⟨⟨a, b⟩, d⟩

theorem check_corners_iff (c : Conn) :
    check_corners c = true ↔ CornerOK c := by
  unfold check_corners CornerOK
  simp only [Bool.and_eq_true, Bool.or_eq_true, List.all_eq_true,
    List.any_eq_true, List.mem_range, decide_eq_true_eq]
  constructor
  · rintro ⟨h1, h2⟩
    constructor
    · intro t ht l hl hk
      rcases h1 t ht l hl with hneg | hex
      · exact absurd hneg hk
      · exact hex
    · intro k hk p hp
      obtain ⟨a, b⟩ := h2 k hk p hp
      exact ⟨a, b⟩
  · rintro ⟨h1, h2⟩
    constructor
    · intro t ht l hl
      by_cases hk : ttc_at c (4 * t + l) < 0
      · exact Or.inl hk
      · exact Or.inr (h1 t ht l hl hk)
    · intro k hk p hp
      obtain ⟨a, b⟩ := h2 k hk p hp
      exact ⟨a, b⟩

theorem is_valid_iff (c : Conn) :
    p4est_connectivity_is_valid c = true ↔
      ShapeOK c ∧ RangeOK c ∧ FaceSymOK c ∧ CornerOK c := by
  unfold p4est_connectivity_is_valid
  simp only [Bool.and_eq_true]
  rw [check_shape_iff, check_range_iff, check_faces_iff, check_corners_iff]
  tauto

theorem find_filter_ne_none (l : List (Nat × Conn)) (i : Nat) :
    (l.filter (fun e => decide (e.1 ≠ i))).find? (fun e => e.1 == i) =
      none := by
  rw [List.find?_eq_none]
  intro x hx
  have hne := (List.mem_filter.mp hx).2
  simp only [decide_eq_true_eq] at hne
  simp [hne]

/-- C1: for a valid connectivity, p4est_find_face_transform returns -1
exactly on an outer boundary face, the self-reference slot encoding the
same face back; in that case the transform array is left unwritten, and
otherwise the return value is the neighbor tree decoded from the
tree_to_tree entry, with the transform written. -/
theorem fft_boundary_spec (c : Conn) (t f : Nat)
    (hv : p4est_connectivity_is_valid c = true)
    (ht : t < c.num_trees) (hf : f < 4) :
    FftBoundarySpec c t f := by
  have hR := ((is_valid_iff c).mp hv).2.1
  have htt := hR.2.1 (4 * t + f) (by omega)
  unfold FftBoundarySpec
  simp only [p4est_find_face_transform]
  by_cases hb : tt_at c (4 * t + f) = (t : Int) ∧
      tf_at c (4 * t + f) % 4 = (f : Int)
  · rw [if_pos hb]
    exact ⟨⟨fun _ => hb, fun _ => rfl⟩, fun _ => rfl,
      fun h => absurd rfl h⟩
  · rw [if_neg hb]
    refine ⟨⟨fun h => ?_, fun h => absurd h hb⟩, fun h => ?_,
      fun _ => ⟨rfl, rfl⟩⟩
    · exact absurd h (by omega)
    · exact absurd h (by omega)

theorem fft_boundary_spec_witness :
    p4est_connectivity_is_valid unitsquare_conn = true ∧
    0 < unitsquare_conn.num_trees ∧ 0 < 4 ∧
    FftBoundarySpec unitsquare_conn 0 0 :=
  ⟨by decide, by decide, by decide,
   fft_boundary_spec unitsquare_conn 0 0 (by decide) (by decide) (by decide)⟩

/-- C5: the structural validity decision procedure returns true exactly
when the null/shape check, the index-range check, the face-symmetry check
and the corner cross-consistency check all hold; the embedded definition
joins the four checks in that order by short-circuit conjunction, as a pure
function. -/
theorem is_valid_laws (c : Conn) :
    p4est_connectivity_is_valid c = true ↔
      ShapeOK c ∧ RangeOK c ∧ FaceSymOK c ∧ CornerOK c :=
  is_valid_iff c

/-- C6: every canonical topology survives a save-load round trip up to
is_equal. -/
theorem canonical_roundtrip :
    save_load_roundtrip unitsquare_conn = true ∧
    save_load_roundtrip periodic_conn = true ∧
    save_load_roundtrip rotwrap_conn = true ∧
    save_load_roundtrip corner_conn = true ∧
    save_load_roundtrip moebius_conn = true ∧
    save_load_roundtrip star_conn = true := by decide

/-- C7: the loader reads the version tag first and fails fatally, with no
record returned, on every file whose tag differs from the compiled-in
format constant, for any file content after the tag and hence with no
cross-version migration; a structurally truncated file fails fatally as
well. -/
theorem load_version_gate :
    (∀ v rest, v ≠ P4EST_ONDISK_FORMAT →
      p4est_connectivity_load (v :: rest) = none) ∧
    (∀ file : List Int, file.length < 5 →
      p4est_connectivity_load file = none) := by
  constructor
  · intro v rest h
    match rest with
    | [] => rfl
    | [_] => rfl
    | [_, _] => rfl
    | [_, _, _] => rfl
    | _ :: _ :: _ :: _ :: _ =>
      simp only [p4est_connectivity_load]
      rw [if_neg]
      intro hc
      exact h hc.1
  · intro file h
    match file with
    | [] => rfl
    | [_] => rfl
    | [_, _] => rfl
    | [_, _, _] => rfl
    | [_, _, _, _] => rfl
    | _ :: _ :: _ :: _ :: _ :: _ => exact absurd h (by simp)

theorem load_version_gate_witness :
    (0 : Int) ≠ P4EST_ONDISK_FORMAT ∧
    p4est_connectivity_load [0] = none :=
  ⟨by decide, load_version_gate.1 0 [] (by decide)⟩

/-- C9: destroy applied to a NULL record pointer is a no-op leaving the
heap unchanged, and destroy applied to a live record removes that record,
and with it all its owned arrays, from the heap. -/
theorem destroy_spec (h : ConnHeap) (i : Nat) :
    p4est_connectivity_destroy h none = h ∧
    heap_lookup (p4est_connectivity_destroy h (some i)) i = none := by
  refine ⟨rfl, ?_⟩
  unfold heap_lookup p4est_connectivity_destroy
  rw [find_filter_ne_none]
  rfl

/-- C10: in every valid connectivity record the vertices and
tree_to_vertex arrays are absent exactly when num_vertices is zero,
independently of num_trees, and the four corner arrays are absent exactly
when num_corners is zero. -/
theorem nullity_invariant (c : Conn)
    (hv : p4est_connectivity_is_valid c = true) :
    ((c.vertices = none ∧ c.tree_to_vertex = none) ↔
      c.num_vertices = 0) ∧
    ((c.tree_to_corner = none ∧ c.ctt_offset = none ∧
      c.corner_to_tree = none ∧ c.corner_to_corner = none) ↔
      c.num_corners = 0) := by
  obtain ⟨h1, h2, _, _, h5, h6⟩ := ((is_valid_iff c).mp hv).1
  constructor
  · constructor
    · rintro ⟨e1, _⟩
      by_contra hnz
      obtain ⟨v, tv, ev, _⟩ := h2 hnz
      rw [ev] at e1
      exact Option.noConfusion e1
    · exact h1
  · constructor
    · rintro ⟨e1, _⟩
      by_contra hnz
      obtain ⟨k, off, ct, cc, ek, _⟩ := h6 hnz
      rw [ek] at e1
      exact Option.noConfusion e1
    · exact h5

theorem nullity_invariant_witness :
    p4est_connectivity_is_valid star_conn = true ∧
    0 < star_conn.num_trees ∧ star_conn.num_vertices = 0 ∧
    (((star_conn.vertices = none ∧ star_conn.tree_to_vertex = none) ↔
       star_conn.num_vertices = 0) ∧
     ((star_conn.tree_to_corner = none ∧ star_conn.ctt_offset = none ∧
       star_conn.corner_to_tree = none ∧
       star_conn.corner_to_corner = none) ↔ star_conn.num_corners = 0)) :=
  ⟨by decide, by decide, by decide, nullity_invariant star_conn (by decide)⟩

/-- C8 counterexample: in the moebius record the canonical forward walk
around the band twice (ten face-neighbor steps) returns to the start tree
with the orientation flag flipped exactly twice, an even total, so the
closed double walk does not accumulate an odd number of flips. -/
theorem moebius_double_walk_even :
    (band_walk moebius_conn 1 10 0).1 = 0 ∧
    (band_walk moebius_conn 1 10 0).2 = 2 ∧
    ¬ (band_walk moebius_conn 1 10 0).2 % 2 = 1 := by decide

/-- C8 amended: in the moebius record every canonical closed walk around
the non-orientable gluing once, in either direction and from every start
tree, returns to the start tree with an odd total number of orientation
flips, and the corresponding double walk returns with an even total. -/
theorem moebius_walk_parity (t : Fin 5) :
    ((band_walk moebius_conn 1 5 t.1).1 = t.1 ∧
     (band_walk moebius_conn 1 5 t.1).2 % 2 = 1) ∧
    ((band_walk moebius_conn 0 5 t.1).1 = t.1 ∧
     (band_walk moebius_conn 0 5 t.1).2 % 2 = 1) ∧
    ((band_walk moebius_conn 1 10 t.1).1 = t.1 ∧
     (band_walk moebius_conn 1 10 t.1).2 % 2 = 0) ∧
    ((band_walk moebius_conn 0 10 t.1).1 = t.1 ∧
     (band_walk moebius_conn 0 10 t.1).2 % 2 = 0) := by
  revert t
  decide

/-- C3 counterexample: at the periodic record, tree 0, face 2 (a -y face,
normal axis 1), the written transform holds its zero slot at position 1
and the normal axis at position 2, not the normal axis at position 1 with
the zero slot at position 2 as the claimed ordering states. -/
theorem fft_layout_counterexample :
    (p4est_find_face_transform periodic_conn 0 2).2 =
      some [0, 0, 1, 0, 0, 1, 0, 0, 3] ∧
    face_normal_axis 2 = 1 ∧
    ¬ ([0, 0, 1, 0, 0, 1, 0, 0, 3] : List Int).getD 1 0 =
        face_normal_axis 2 := by decide

/-- C3 amended: whenever the face transform finds a neighbor, the 9-slot
array holds, in order, the tangential axis, the zero slot and the normal
axis of the origin face in positions 0 to 2, the same sequence for the
neighbor face in positions 3 to 5, the orientation bit ttf div 4 in
position 6, always 0 in position 7, and the target face code in
position 8. -/
theorem fft_layout (c : Conn) (t f : Nat) (nt : Int) (A : List Int)
    (h : p4est_find_face_transform c t f = (nt, some A)) :
    A = [face_tangent_axis (f : Int), 0, face_normal_axis (f : Int),
         face_tangent_axis (tf_at c (4 * t + f) % 4), 0,
         face_normal_axis (tf_at c (4 * t + f) % 4),
         tf_at c (4 * t + f) / 4, 0, tf_at c (4 * t + f) % 4] := by
  simp only [p4est_find_face_transform] at h
  by_cases hb : tt_at c (4 * t + f) = (t : Int) ∧
      tf_at c (4 * t + f) % 4 = (f : Int)
  · rw [if_pos hb] at h
    exact absurd (congrArg Prod.snd h) (by simp)
  · rw [if_neg hb] at h
    have h3 : build_ftransform (f : Int) (tf_at c (4 * t + f) % 4)
        (tf_at c (4 * t + f) / 4) = A :=
      Option.some.inj (congrArg Prod.snd h)
    rw [← h3]
    rfl

theorem fft_layout_witness :
    p4est_find_face_transform periodic_conn 0 2 =
      (0, some [0, 0, 1, 0, 0, 1, 0, 0, 3]) ∧
    ([0, 0, 1, 0, 0, 1, 0, 0, 3] : List Int) =
      [face_tangent_axis ((2 : Nat) : Int), 0,
       face_normal_axis ((2 : Nat) : Int),
       face_tangent_axis (tf_at periodic_conn (4 * 0 + 2) % 4), 0,
       face_normal_axis (tf_at periodic_conn (4 * 0 + 2) % 4),
       tf_at periodic_conn (4 * 0 + 2) / 4, 0,
       tf_at periodic_conn (4 * 0 + 2) % 4] :=
  ⟨by decide,
   fft_layout periodic_conn 0 2 0 [0, 0, 1, 0, 0, 1, 0, 0, 3] (by decide)⟩

/-- C4 counterexample: at the star record's registered central corner the
CSR-read path, which is what the corner transform returns there, contains
the diagonal pair of tree 2 while the face-walk-inference path does not,
so the two paths do not produce identical result sets. -/
theorem star_corner_paths_differ :
    0 ≤ ttc_at star_conn (4 * 0 + 0) ∧
    p4est_find_corner_transform star_conn 0 0 =
      corner_path_csr star_conn 0 0 (ttc_at star_conn (4 * 0 + 0)).toNat ∧
    ((2 : Int), (0 : Int)) ∈ p4est_find_corner_transform star_conn 0 0 ∧
    ((2 : Int), (0 : Int)) ∉ corner_path_walk star_conn 0 0 := by decide

/-- C4 amended: on the canonical records the corner transform populates
the result set without the originating pair and without duplicates; at the
star's registered central corner it returns exactly the five other
incident tree/corner pairs, a superset of what the face-walk path would
infer; and at every registered corner of the moebius record, where exactly
two trees meet, and of the three-tree corner record, the CSR-read path
agrees with the face-walk-inference path as a result set. -/
theorem corner_transform_amended :
    (∀ t : Fin 6, ∀ l : Fin 4, 0 ≤ ttc_at star_conn (4 * t.1 + l.1) →
      p4est_find_corner_transform star_conn t.1 l.1 =
        star_center_pairs t.1 ∧
      (∀ q ∈ corner_path_walk star_conn t.1 l.1,
        q ∈ p4est_find_corner_transform star_conn t.1 l.1) ∧
      ((t.1 : Int), (l.1 : Int)) ∉
        p4est_find_corner_transform star_conn t.1 l.1 ∧
      (p4est_find_corner_transform star_conn t.1 l.1).Nodup) ∧
    (∀ t : Fin 5, ∀ l : Fin 4, 0 ≤ ttc_at moebius_conn (4 * t.1 + l.1) →
      p4est_find_corner_transform moebius_conn t.1 l.1 =
        corner_path_walk moebius_conn t.1 l.1 ∧
      ((t.1 : Int), (l.1 : Int)) ∉
        p4est_find_corner_transform moebius_conn t.1 l.1 ∧
      (p4est_find_corner_transform moebius_conn t.1 l.1).Nodup) ∧
    (∀ t : Fin 3, ∀ l : Fin 4, 0 ≤ ttc_at corner_conn (4 * t.1 + l.1) →
      (p4est_find_corner_transform corner_conn t.1 l.1).Perm
        (corner_path_walk corner_conn t.1 l.1) ∧
      ((t.1 : Int), (l.1 : Int)) ∉
        p4est_find_corner_transform corner_conn t.1 l.1 ∧
      (p4est_find_corner_transform corner_conn t.1 l.1).Nodup) := by
  refine ⟨?_, ?_, ?_⟩ <;> decide

theorem corner_transform_amended_witness :
    0 ≤ ttc_at star_conn (4 * 0 + 0) ∧
    (p4est_find_corner_transform star_conn 0 0 = star_center_pairs 0 ∧
     (∀ q ∈ corner_path_walk star_conn 0 0,
       q ∈ p4est_find_corner_transform star_conn 0 0) ∧
     ((0 : Int), (0 : Int)) ∉ p4est_find_corner_transform star_conn 0 0 ∧
     (p4est_find_corner_transform star_conn 0 0).Nodup) :=
  ⟨by decide, corner_transform_amended.1 0 0 (by decide)⟩

/-- C2: for a valid connectivity, whenever the face transform finds a
neighbor, the reverse query at the decoded neighbor tree and face yields
the originating tree and face back with the same orientation bit, and its
transform array is the structural inverse of the first, slots 0 to 2
swapped with slots 3 to 5 and the same reversal flag. -/
theorem fft_symmetry (c : Conn) (t f : Nat) (nt : Int) (A : List Int)
    (hv : p4est_connectivity_is_valid c = true)
    (ht : t < c.num_trees) (hf : f < 4)
    (hq : p4est_find_face_transform c t f = (nt, some A)) :
    FftSymSpec c t f nt A := by
  have hP := (is_valid_iff c).mp hv
  have hR := hP.2.1
  have htt := hR.2.1 (4 * t + f) (by omega)
  obtain ⟨⟨hl, hr⟩, hbt, hbf⟩ := hP.2.2.1 t ht f hf
  simp only [p4est_find_face_transform] at hq
  by_cases hb : tt_at c (4 * t + f) = (t : Int) ∧
      tf_at c (4 * t + f) % 4 = (f : Int)
  · rw [if_pos hb] at hq
    exact absurd (congrArg Prod.snd hq) (by simp)
  · rw [if_neg hb] at hq
    have hnt : tt_at c (4 * t + f) = nt := congrArg Prod.fst hq
    have hA : build_ftransform (f : Int) (tf_at c (4 * t + f) % 4)
        (tf_at c (4 * t + f) / 4) = A :=
      Option.some.inj (congrArg Prod.snd hq)
    rw [hnt] at hbt hbf htt hb
    unfold FftSymSpec
    refine ⟨htt.1, build_ftransform (tf_at c (4 * t + f) % 4) (f : Int)
      (tf_at c (4 * t + f) / 4), ?_, ?_, ?_, ?_, ?_⟩
    · simp only [p4est_find_face_transform]
      rw [if_neg ?hcond]
      case hcond =>
        rw [hbt, hbf]
        omega
      rw [hbt, hbf]
      have e0 : (((tf_at c (4 * t + f) % 4).toNat : Nat) : Int) =
          tf_at c (4 * t + f) % 4 := by omega
      have e1 : ((f : Int) + 4 * (tf_at c (4 * t + f) / 4)) % 4 =
          (f : Int) := by omega
      have e2 : ((f : Int) + 4 * (tf_at c (4 * t + f) / 4)) / 4 =
          tf_at c (4 * t + f) / 4 := by omega
      rw [e0, e1, e2]
    · intro i hi
      rw [← hA]
      interval_cases i <;> exact ⟨rfl, rfl⟩
    · rw [← hA]
      rfl
    · rw [hbf]
      omega
    · rw [hbf]
      omega

theorem fft_symmetry_witness :
    (p4est_connectivity_is_valid periodic_conn = true ∧
     0 < periodic_conn.num_trees ∧ (0 : Nat) < 4 ∧
     p4est_find_face_transform periodic_conn 0 0 =
       (0, some [1, 0, 0, 1, 0, 0, 0, 0, 1])) ∧
    FftSymSpec periodic_conn 0 0 0 [1, 0, 0, 1, 0, 0, 0, 0, 1] :=
  ⟨⟨by decide, by decide, by decide, by decide⟩,
   fft_symmetry periodic_conn 0 0 0 [1, 0, 0, 1, 0, 0, 0, 0, 1]
     (by decide) (by decide) (by decide) (by decide)⟩

end P4estConn
